import Mathlib

/-!
Verification of `scripts/html_comprehensive_validator.py`.

The script runs an external HTML checker (`vnu`) on each input file, applies a
supplementary regex scan for void elements written with a trailing `/>`, and
folds the per-file results into a process exit code.  The embedding below
models the file system, the external checker and the printed output
explicitly; the regex` <(area|base|...|wbr)[^>]*\/>` is embedded as a
character-list matcher with the same match semantics as Python's `re`.
-/

namespace HtmlValidator

/-- Configured filesystem path of the external `vnu` checker binary
(the script expands the leading `~` against the user's home directory;
we keep the literal). -/
def VNU_PATH : String := "~/software/nu_html_checker/vnu-runtime-image/bin/vnu"

/-- The fixed list of void-element tag names the scan pattern is built from
(`void_elements` in `check_trailing_slashes`). -/
def void_elements : List String :=
  ["area", "base", "br", "col", "embed", "hr", "img", "input", "link",
   "meta", "param", "source", "track", "wbr"]

/-- Number of characters consumed by the regex fragment `[^>]*\/>` at the head
of `cs`, if it matches there.  A match requires the first `>` of `cs` to be
immediately preceded by `/`; the consumed length runs just past that `>`.
(Greedy and lazy matching agree here, since `[^>]*` cannot cross a `>`.) -/
def scanCloseLen : List Char → Option Nat
  | [] => none
  | c :: cs =>
    if c = '/' ∧ cs.head? = some '>' then some 2
    else if c = '>' then none
    else (scanCloseLen cs).map (· + 1)

/-- Length of the match of the pattern `<(area|base|...|wbr)[^>]*\/>` at the
head of `cs`, if any: a `<`, then one of the listed tag names (alternatives
tried in list order, as Python's `re` does), then `[^>]*\/>`. -/
def matchLenAt : List Char → Option Nat
  | [] => none
  | c :: rest =>
    if c = '<' then
      void_elements.findSome? fun t =>
        if t.toList.isPrefixOf rest then
          (scanCloseLen (rest.drop t.toList.length)).map fun k => 1 + t.toList.length + k
        else none
    else none

/-- `re.finditer` of the void-element pattern over `cs`: scan positions left to
right, record each non-overlapping match as `(start offset, length)`, and
resume scanning at a match's end.  `fuel` bounds the recursion; since every
step consumes at least one character, `cs.length` (supplied by
`finditerVoid`) is always enough. -/
def finditerAux : Nat → List Char → Nat → List (Nat × Nat)
  | 0, _, _ => []
  | _ + 1, [], _ => []
  | fuel + 1, c :: rest, pos =>
    match matchLenAt (c :: rest) with
    | some len => (pos, len) :: finditerAux fuel (rest.drop (len - 1)) (pos + len)
    | none => finditerAux fuel rest (pos + 1)

/-- All non-overlapping matches of the void-element pattern in `cs`,
as `(start offset, length)` pairs in scan order. -/
def finditerVoid (cs : List Char) : List (Nat × Nat) :=
  finditerAux cs.length cs 0

/-- The informational message emitted for the match `m = (start, length)` in
`content`: the 1-based line number is the count of newline characters before
`start`, plus one, and the matched text is quoted verbatim. -/
def matchMessage (content : List Char) (m : Nat × Nat) : String :=
  "Info: Trailing slash on void element has no effect and interacts badly with unquoted attribute values. Line "
    ++ toString ((content.take m.1).count '\n' + 1) ++ ": "
    ++ String.mk ((content.drop m.1).take m.2)

/-- `check_trailing_slashes`, applied to the file's content: returns whether
any pattern match occurred (`bool(matches)`) and the newline-joined
informational messages (`'\n'.join(output)`). -/
def check_trailing_slashes (content : String) : Bool × String :=
  let cs := content.toList
  let ms := finditerVoid cs
  (!ms.isEmpty, String.intercalate "\n" (ms.map (matchMessage cs)))

/-- Outcome of one invocation of the external `vnu` subprocess. -/
structure VnuResult where
  exitCode : Nat
  stdout : String
  stderr : String

/-- The environment a run executes in: whether the `vnu` binary exists at its
configured path, the file system (path to content, `none` when the file does
not exist), and the behaviour of the external checker on each path. -/
structure Env where
  vnuExists : Bool
  fs : String → Option String
  vnu : String → VnuResult

/-- Observable actions of a run: lines printed, and invocations of the two
per-file checks. -/
inductive Event where
  | print (s : String)
  | callVnu (path : String)
  | callScan (path : String)
deriving DecidableEq

/-- `run_vnu`: runs the external checker via `subprocess.run(..., check=True)`.
A non-zero exit raises `CalledProcessError`, caught and turned into
`(True, stdout + stderr)`; a zero exit yields `(False, stdout)`. -/
def run_vnu (env : Env) (file_path : String) : Bool × String :=
  let r := env.vnu file_path
  if r.exitCode = 0 then (false, r.stdout) else (true, r.stdout ++ r.stderr)

/-- `validate_file`: runs `run_vnu` and then `check_trailing_slashes` on one
file (whose content is `content`), prints a section for each non-clean
result, and returns the OR of the two flags together with the events in
program order. -/
def validate_file (env : Env) (file_path content : String) : Bool × List Event :=
  let v := run_vnu env file_path
  let s := check_trailing_slashes content
  let errors_found := v.1 || s.1
  (errors_found,
    [Event.print ("\nValidating " ++ file_path ++ ":"), Event.callVnu file_path]
      ++ (if v.1 then [Event.print "vnu validation errors/warnings:", Event.print v.2] else [])
      ++ [Event.callScan file_path]
      ++ (if s.1 then [Event.print "Custom check results:", Event.print s.2] else [])
      ++ (if errors_found then [] else [Event.print ("No issues found in " ++ file_path)]))

/-- The per-file loop of `main`: for each path in order, a missing file prints
an error and contributes `True` to the accumulator; an existing file is
validated and its flag OR-ed in. -/
def processFiles (env : Env) : List String → Bool × List Event
  | [] => (false, [])
  | p :: ps =>
    let cur : Bool × List Event :=
      match env.fs p with
      | none => (true, [Event.print ("Error: File not found: " ++ p)])
      | some content => validate_file env p content
    let rest := processFiles env ps
    (cur.1 || rest.1, cur.2 ++ rest.2)

/-- `main(file_paths)`: checks the `vnu` path once up front (absent: error and
exit 1), then processes every file, then prints a summary and exits 1 when
any error was found, 0 otherwise.  Returns (exit status, events). -/
def mainRun (env : Env) (file_paths : List String) : Nat × List Event :=
  if env.vnuExists then
    let r := processFiles env file_paths
    if r.1 then
      (1, r.2 ++ [Event.print "\nValidation completed. Issues were found in one or more files."])
    else
      (0, r.2 ++ [Event.print "\nValidation completed. No issues were found in any files."])
  else
    (1, [Event.print ("Error: vnu not found at " ++ VNU_PATH)])

/-- The flag a single listed path contributes to the run-level OR:
`True` for a missing file, else `validate_file`'s flag. -/
def perFileFlag (env : Env) (p : String) : Bool :=
  match env.fs p with
  | none => true
  | some content => (validate_file env p content).1

/-- The spec's description of a heuristic-scan match, stated declaratively: an
occurrence, at the head of `cs`, of `<`, one of the listed tag names,
arbitrary non-`>` characters, and a `/>` close. -/
def specMatchAtHead (cs : List Char) : Prop :=
  ∃ t ∈ void_elements, ∃ mid : List Char,
    (∀ ch ∈ mid, ch ≠ '>') ∧ ('<' :: (t.toList ++ mid ++ ['/', '>'])) <+: cs

/-- A test environment whose external checker reports issues on every file. -/
def envVnuIssues : Env :=
  { vnuExists := true, fs := fun _ => some "", vnu := fun _ => ⟨1, "e", "w"⟩ }

/-- A test environment whose external checker is clean on every file. -/
def envVnuClean : Env :=
  { vnuExists := true, fs := fun _ => some "", vnu := fun _ => ⟨0, "", ""⟩ }

/-- A test environment in which the `vnu` binary is absent. -/
def envNoVnu : Env :=
  { vnuExists := false, fs := fun _ => none, vnu := fun _ => ⟨0, "", ""⟩ }

/-- A test environment in which the `vnu` binary exists but no input file does. -/
def envMissingFile : Env :=
  { vnuExists := true, fs := fun _ => none, vnu := fun _ => ⟨0, "", ""⟩ }

/-- A test environment with one clean HTML file `a.html`. -/
def envAllGood : Env :=
  { vnuExists := true,
    fs := fun p => if p = "a.html" then some "<p>hello</p>" else none,
    vnu := fun _ => ⟨0, "", ""⟩ }

/-! ### Lemmas about the pattern matcher -/

lemma matchLenAt_nil : matchLenAt [] = none := rfl

lemma matchLenAt_drop_none_of_le {cs : List Char} {q : Nat} (h : cs.length ≤ q) :
    matchLenAt (cs.drop q) = none := by
  rw [List.drop_eq_nil_of_le h, matchLenAt_nil]

lemma one_le_of_matchLenAt_eq_some {cs : List Char} {len : Nat}
    (h : matchLenAt cs = some len) : 1 ≤ len := by
  match cs with
  | [] => simp [matchLenAt] at h
  | c :: rest =>
    rw [matchLenAt] at h
    by_cases hc : c = '<'
    · rw [if_pos hc] at h
      obtain ⟨t, -, ht⟩ := List.exists_of_findSome?_eq_some h
      by_cases hp : t.toList.isPrefixOf rest
      · rw [if_pos hp] at ht
        obtain ⟨k, -, hk⟩ := Option.map_eq_some'.mp ht
        omega
      · rw [if_neg hp] at ht
        exact absurd ht (by simp)
    · rw [if_neg hc] at h
      exact absurd h (by simp)

lemma finditerAux_eq_nil : ∀ (fuel : Nat) (cs : List Char) (pos : Nat),
    (∀ i, matchLenAt (cs.drop i) = none) → finditerAux fuel cs pos = []
  | 0, _, _, _ => rfl
  | _ + 1, [], _, _ => rfl
  | fuel + 1, c :: rest, pos, h => by
    have h0 : matchLenAt (c :: rest) = none := by simpa using h 0
    rw [finditerAux, h0]
    exact finditerAux_eq_nil fuel rest (pos + 1) fun i => by simpa using h (i + 1)

lemma finditerAux_single : ∀ (p fuel : Nat) (cs : List Char) (pos len : Nat),
    p < fuel → matchLenAt (cs.drop p) = some len →
    (∀ q, q ≠ p → matchLenAt (cs.drop q) = none) →
    finditerAux fuel cs pos = [(pos + p, len)]
  | 0, fuel, cs, pos, len, hfuel, hm, hq => by
    rw [List.drop_zero] at hm
    match cs, hm with
    | c :: rest, hm =>
      have hlen : 1 ≤ len := one_le_of_matchLenAt_eq_some hm
      match fuel, hfuel with
      | fuel + 1, _ =>
        rw [finditerAux, hm]
        have htail : finditerAux fuel (rest.drop (len - 1)) (pos + len) = [] := by
          refine finditerAux_eq_nil _ _ _ fun i => ?_
          rw [List.drop_drop]
          have : matchLenAt ((c :: rest).drop (len + i)) = none := hq (len + i) (by omega)
          rw [show len + i = (len - 1 + i) + 1 by omega] at this
          simpa using this
        simp [htail]
  | p + 1, fuel, cs, pos, len, hfuel, hm, hq => by
    match cs with
    | [] => rw [List.drop_nil, matchLenAt_nil] at hm; exact absurd hm (by simp)
    | c :: rest =>
      match fuel, hfuel with
      | fuel + 1, hfuel =>
        have h0 : matchLenAt (c :: rest) = none := by simpa using hq 0 (by omega)
        rw [finditerAux, h0]
        have := finditerAux_single p fuel rest (pos + 1) len (by omega)
          (by simpa using hm) (fun q hqp => by simpa using hq (q + 1) (by omega))
        rw [this]
        simp [Nat.add_assoc, Nat.add_comm 1 p]

/-! ### The `[^>]*\/>` fragment versus its declarative description -/

lemma scanCloseLen_of_close : ∀ (mid : List Char), (∀ ch ∈ mid, ch ≠ '>') →
    ∀ (tail : List Char), scanCloseLen (mid ++ '/' :: '>' :: tail) = some (mid.length + 2)
  | [], _, tail => by simp [scanCloseLen]
  | c :: mid, h, tail => by
    have hc : c ≠ '>' := h c (by simp)
    have hhead : ((mid ++ '/' :: '>' :: tail).head? = some '>') → False := by
      cases mid with
      | nil => simp
      | cons d mid' =>
        have hd : d ≠ '>' := h d (by simp)
        simp [hd]
    rw [List.cons_append, scanCloseLen, if_neg (fun hand => hhead hand.2), if_neg hc,
      scanCloseLen_of_close mid (fun ch hch => h ch (by simp [hch])) tail]
    simp [Nat.add_comm, Nat.add_assoc, Nat.add_left_comm]

lemma scanCloseLen_decomp : ∀ {cs : List Char} {k : Nat}, scanCloseLen cs = some k →
    ∃ mid tail, (∀ ch ∈ mid, ch ≠ '>') ∧ cs = mid ++ '/' :: '>' :: tail
  | [], k, h => by simp [scanCloseLen] at h
  | c :: cs, k, h => by
    rw [scanCloseLen] at h
    by_cases h1 : c = '/' ∧ cs.head? = some '>'
    · obtain ⟨hc, hh⟩ := h1
      cases cs with
      | nil => simp at hh
      | cons d cs' =>
        have hd : d = '>' := by simpa using hh
        exact ⟨[], cs', by simp, by simp [hc, hd]⟩
    · rw [if_neg h1] at h
      by_cases h2 : c = '>'
      · rw [if_pos h2] at h; exact absurd h (by simp)
      · rw [if_neg h2] at h
        obtain ⟨k', hk', -⟩ := Option.map_eq_some'.mp h
        obtain ⟨mid, tail, hmid, hdec⟩ := scanCloseLen_decomp hk'
        exact ⟨c :: mid, tail, by simpa [h2] using hmid, by simp [hdec]⟩

lemma matchLenAt_isSome_iff_spec (cs : List Char) :
    (matchLenAt cs).isSome = true ↔ specMatchAtHead cs := by
  constructor
  · intro h
    match cs with
    | [] => simp [matchLenAt] at h
    | c :: rest =>
      rw [matchLenAt] at h
      by_cases hc : c = '<'
      case neg => rw [if_neg hc] at h; simp at h
      rw [if_pos hc] at h
      rw [List.findSome?_isSome_iff] at h
      obtain ⟨t, ht, hsome⟩ := h
      by_cases hp : t.toList.isPrefixOf rest
      case neg => rw [if_neg hp] at hsome; simp at hsome
      rw [if_pos hp] at hsome
      rw [Option.isSome_map'] at hsome
      obtain ⟨k, hk⟩ := Option.isSome_iff_exists.mp hsome
      obtain ⟨mid, tail, hmid, hdec⟩ := scanCloseLen_decomp hk
      obtain ⟨r2, hr2⟩ := List.isPrefixOf_iff_prefix.mp hp
      have hdrop : rest.drop t.toList.length = r2 := by
        rw [← hr2, List.drop_left]
      refine ⟨t, ht, mid, hmid, tail, ?_⟩
      subst hc
      rw [← hr2, hdrop.symm.trans hdec]
      simp
  · rintro ⟨t, ht, mid, hmid, tail, htail⟩
    rw [← htail, List.cons_append, matchLenAt, if_pos rfl,
      List.findSome?_isSome_iff]
    refine ⟨t, ht, ?_⟩
    have hp : t.toList.isPrefixOf ((t.toList ++ mid ++ ['/', '>']) ++ tail) := by
      rw [List.isPrefixOf_iff_prefix, List.append_assoc, List.append_assoc]
      exact List.prefix_append _ _
    rw [if_pos hp, Option.isSome_map']
    rw [List.append_assoc, List.append_assoc, List.drop_left]
    have := scanCloseLen_of_close mid hmid tail
    simp [this]

lemma allNone_of_noSpec {cs : List Char}
    (h : ∀ q, ¬ specMatchAtHead (cs.drop q)) (q : Nat) :
    matchLenAt (cs.drop q) = none := by
  cases hm : matchLenAt (cs.drop q) with
  | none => rfl
  | some len =>
    exact absurd ((matchLenAt_isSome_iff_spec _).mp (by simp [hm])) (h q)

lemma noSpec_of_allNone {cs : List Char}
    (h : ∀ q < cs.length, matchLenAt (cs.drop q) = none) (q : Nat) :
    ¬ specMatchAtHead (cs.drop q) := by
  intro hs
  have hsome := (matchLenAt_isSome_iff_spec _).mpr hs
  by_cases hq : q < cs.length
  · rw [h q hq] at hsome; simp at hsome
  · rw [matchLenAt_drop_none_of_le (by omega)] at hsome; simp at hsome

/-- The literal `<img src=x/>` matches the pattern at the head of any
continuation, with length 12, by pure computation on the known prefix. -/
lemma matchLenAt_imgLit (rest : List Char) :
    matchLenAt ("<img src=x/>".toList ++ rest) = some 12 := rfl

/-! ### Lemmas about the per-file loop and the driver -/

lemma processFiles_fst (env : Env) : ∀ l : List String,
    (processFiles env l).1 = l.any (perFileFlag env)
  | [] => rfl
  | p :: ps => by
    rw [processFiles, List.any_cons, ← processFiles_fst env ps, perFileFlag]
    cases env.fs p <;> simp

lemma processFiles_append (env : Env) (l₁ l₂ : List String) :
    processFiles env (l₁ ++ l₂) =
      ((processFiles env l₁).1 || (processFiles env l₂).1,
       (processFiles env l₁).2 ++ (processFiles env l₂).2) := by
  induction l₁ with
  | nil => simp [processFiles]
  | cons p ps ih => simp [processFiles, ih, Bool.or_assoc]

lemma mem_validate_file_events {env : Env} {q content : String} {e : Event}
    (he : e ∈ (validate_file env q content).2) :
    (∃ s, e = Event.print s) ∨ e = Event.callVnu q ∨ e = Event.callScan q := by
  by_cases hv : (run_vnu env q).1 = true <;>
    by_cases hs : (check_trailing_slashes content).1 = true <;>
      simp [validate_file, hv, hs] at he <;> aesop

lemma callVnu_not_mem_processFiles {env : Env} {p : String} (h : env.fs p = none) :
    ∀ l : List String, Event.callVnu p ∉ (processFiles env l).2
  | [] => by simp [processFiles]
  | q :: ql => by
    rw [processFiles]
    intro hmem
    rcases List.mem_append.mp hmem with hcur | hrest
    · revert hcur
      cases hq : env.fs q with
      | none => simp
      | some content =>
        intro hcur
        rcases mem_validate_file_events hcur with ⟨s, hs⟩ | hv | hsc
        · exact Event.noConfusion hs
        · have : p = q := by injection hv
          rw [this, hq] at h; exact Option.noConfusion h
        · exact Event.noConfusion hsc
    · exact callVnu_not_mem_processFiles h ql hrest

lemma callScan_not_mem_processFiles {env : Env} {p : String} (h : env.fs p = none) :
    ∀ l : List String, Event.callScan p ∉ (processFiles env l).2
  | [] => by simp [processFiles]
  | q :: ql => by
    rw [processFiles]
    intro hmem
    rcases List.mem_append.mp hmem with hcur | hrest
    · revert hcur
      cases hq : env.fs q with
      | none => simp
      | some content =>
        intro hcur
        rcases mem_validate_file_events hcur with ⟨s, hs⟩ | hv | hsc
        · exact Event.noConfusion hs
        · exact Event.noConfusion hv
        · have : p = q := by injection hsc
          rw [this, hq] at h; exact Option.noConfusion h
    · exact callScan_not_mem_processFiles h ql hrest

lemma perFileFlag_eq_false_iff (env : Env) (p : String) :
    perFileFlag env p = false ↔
      ∃ c, env.fs p = some c ∧ (run_vnu env p).1 = false ∧
        (check_trailing_slashes c).1 = false := by
  rw [perFileFlag]
  cases h : env.fs p with
  | none => simp [h]
  | some c => simp [h, validate_file]

lemma mainRun_fst (env : Env) (paths : List String) :
    (mainRun env paths).1 =
      if env.vnuExists then (if paths.any (perFileFlag env) then 1 else 0) else 1 := by
  rw [mainRun]
  by_cases hv : env.vnuExists = true <;>
    simp [hv, processFiles_fst] <;> split <;> simp

lemma mainRun_snd_of_vnuExists (env : Env) (paths : List String)
    (hv : env.vnuExists = true) :
    ∃ s, (mainRun env paths).2 = (processFiles env paths).2 ++ [Event.print s] := by
  rw [mainRun, if_pos (by simp [hv])]
  by_cases hflag : (processFiles env paths).1 = true
  · exact ⟨_, by rw [if_pos hflag]⟩
  · exact ⟨_, by rw [if_neg hflag]⟩

/-! ### Lemmas about `String.intercalate` -/

lemma length_le_intercalate_go (s : String) : ∀ (l : List String) (acc : String),
    acc.length ≤ (String.intercalate.go acc s l).length
  | [], _ => le_refl _
  | a :: as, acc => by
    rw [String.intercalate.go]
    calc acc.length ≤ (acc ++ s ++ a).length := by
          simp [String.length_append]; omega
      _ ≤ _ := length_le_intercalate_go s as (acc ++ s ++ a)

lemma length_le_intercalate_cons (s a : String) (l : List String) :
    a.length ≤ (String.intercalate s (a :: l)).length := by
  rw [String.intercalate]
  exact length_le_intercalate_go s l a

lemma intercalate_singleton (s a : String) : String.intercalate s [a] = a := rfl

lemma intercalate_nil (s : String) : String.intercalate s [] = "" := rfl

lemma matchMessage_length_pos (c : List Char) (m : Nat × Nat) :
    0 < (matchMessage c m).length := by
  rw [matchMessage]
  have h0 : 0 < ("Info: Trailing slash on void element has no effect and interacts badly with unquoted attribute values. Line " : String).length := by
    decide
  simp [String.length_append]
  exact Or.inl (Or.inl (Or.inl h0))

/-! ### Claim theorems -/

/-- C2, counterexample: the claim says the pattern is built from a fixed list
of exactly twelve void element tag names, but the list in
`check_trailing_slashes` has fourteen entries. -/
theorem claim_C2_counterexample : ¬ void_elements.length = 12 := by decide

/-- C2, amended: the heuristic scan's pattern is built from a fixed list of
exactly fourteen void element tag names, and a match is any occurrence of one
of those names after `<`, followed by arbitrary non-`>` characters, followed
by `/>`. -/
theorem claim_C2_amended :
    void_elements.length = 14 ∧
    ∀ cs : List Char, (matchLenAt cs).isSome = true ↔ specMatchAtHead cs :=
  ⟨by decide, matchLenAt_isSome_iff_spec⟩

/-- C5: if the external checker subprocess exits non-zero, `run_vnu` returns
flag `true` with stdout ++ stderr as the report; if it exits zero, flag
`false` with stdout alone. -/
theorem claim_C5 (env : Env) (p : String) :
    ((env.vnu p).exitCode ≠ 0 →
      run_vnu env p = (true, (env.vnu p).stdout ++ (env.vnu p).stderr)) ∧
    ((env.vnu p).exitCode = 0 →
      run_vnu env p = (false, (env.vnu p).stdout)) := by
  constructor <;> intro h <;> simp [run_vnu, h]

/-- C5 witness: concrete environments exercising both the non-zero-exit and
the zero-exit contract of `run_vnu`. -/
theorem claim_C5_witness :
    run_vnu envVnuIssues "f.html" = (true, "e" ++ "w") ∧
    run_vnu envVnuClean "f.html" = (false, "") :=
  ⟨(claim_C5 envVnuIssues "f.html").1 (by decide),
   (claim_C5 envVnuClean "f.html").2 rfl⟩

/-- C8: per-file orchestration returns the OR of the two checks' flags, and its
event trace always contains the external-checker call followed later by the
heuristic-scan call — no early exit. -/
theorem claim_C8 (env : Env) (path content : String) :
    (validate_file env path content).1
      = ((run_vnu env path).1 || (check_trailing_slashes content).1) ∧
    ∃ l₁ l₂ l₃ : List Event,
      (validate_file env path content).2 =
        l₁ ++ Event.callVnu path :: (l₂ ++ Event.callScan path :: l₃) := by
  refine ⟨rfl, [Event.print ("\nValidating " ++ path ++ ":")],
    (if (run_vnu env path).1 then
      [Event.print "vnu validation errors/warnings:", Event.print (run_vnu env path).2]
     else []),
    (if (check_trailing_slashes content).1 then
      [Event.print "Custom check results:", Event.print (check_trailing_slashes content).2]
     else [])
      ++ (if (run_vnu env path).1 || (check_trailing_slashes content).1 then []
          else [Event.print ("No issues found in " ++ path)]), ?_⟩
  simp [validate_file]

/-- C10: `check_trailing_slashes`'s two components are coherent: the flag is
true iff the diagnostic string is non-empty, and the diagnostic string is the
newline-join of exactly one message per pattern match in the content. -/
theorem claim_C10 (content : String) :
    ((check_trailing_slashes content).1 = true ↔ (check_trailing_slashes content).2 ≠ "") ∧
    ∃ msgs : List String,
      msgs.length = (finditerVoid content.toList).length ∧
      (check_trailing_slashes content).2 = String.intercalate "\n" msgs := by
  constructor
  · simp only [check_trailing_slashes]
    cases hms : finditerVoid content.toList with
    | nil => simp [intercalate_nil]
    | cons m ms =>
      simp only [List.isEmpty_cons, Bool.not_false, List.map_cons, ne_eq]
      refine iff_of_true (by simp) fun hempty => ?_
      have hpos := matchMessage_length_pos content.toList m
      have hlen := length_le_intercalate_cons "\n" (matchMessage content.toList m)
        (List.map (matchMessage content.toList) ms)
      rw [hempty] at hlen
      have hz : ("" : String).length = 0 := rfl
      rw [hz] at hlen
      omega
  · exact ⟨(finditerVoid content.toList).map (matchMessage content.toList), by simp, rfl⟩

/-- C4: a file whose content has no occurrence of a void element written with
a trailing self-closing `/>` (in the spec's declarative sense) gets a false
flag and an empty message string from the scan. -/
theorem claim_C4 (c : List Char)
    (h : ∀ q, ¬ specMatchAtHead (c.drop q)) :
    check_trailing_slashes (String.mk c) = (false, "") := by
  have hnil : finditerVoid c = [] :=
    finditerAux_eq_nil _ _ _ (allNone_of_noSpec h)
  have hc : (String.mk c).toList = c := rfl
  simp [check_trailing_slashes, hc, hnil, intercalate_nil]

/-- C4 witness: a concrete file content with void elements but no trailing
self-closing slash reports no matches. -/
theorem claim_C4_witness :
    check_trailing_slashes (String.mk "<p>hello</p>\n<br>\n".toList) = (false, "") :=
  claim_C4 "<p>hello</p>\n<br>\n".toList (noSpec_of_allNone (by decide))

/-- C9: the scan is case-sensitive: a content containing an uppercase
self-closed void element such as `<IMG src=x/>` but no lowercase occurrence
of a listed tag name followed by non-`>` characters and `/>` gets a false
flag and no matches. -/
theorem claim_C9 (c : List Char) (p : Nat)
    (h1 : "<IMG src=x/>".toList.isPrefixOf (c.drop p) = true)
    (h2 : ∀ q, ¬ specMatchAtHead (c.drop q)) :
    check_trailing_slashes (String.mk c) = (false, "") := by
  have hnil : finditerVoid c = [] :=
    finditerAux_eq_nil _ _ _ (allNone_of_noSpec h2)
  have hc : (String.mk c).toList = c := rfl
  simp [check_trailing_slashes, hc, hnil, intercalate_nil]

/-- C9 witness: the concrete content `<IMG src=x/>` is reported clean. -/
theorem claim_C9_witness :
    check_trailing_slashes (String.mk "<IMG src=x/>".toList) = (false, "") :=
  claim_C9 "<IMG src=x/>".toList 0 (by decide) (noSpec_of_allNone (by decide))

/-- C6: when the external tool is absent, the driver exits 1 having printed
only the vnu-not-found error — no file was read, checked or scanned,
whatever the file arguments. -/
theorem claim_C6 (env : Env) (paths : List String)
    (h : env.vnuExists = false) :
    mainRun env paths = (1, [Event.print ("Error: vnu not found at " ++ VNU_PATH)]) ∧
    ∀ p, Event.callVnu p ∉ (mainRun env paths).2 ∧
         Event.callScan p ∉ (mainRun env paths).2 := by
  have hm : mainRun env paths
      = (1, [Event.print ("Error: vnu not found at " ++ VNU_PATH)]) := by
    rw [mainRun, if_neg (by simp [h])]
  refine ⟨hm, fun p => ?_⟩
  rw [hm]
  simp

/-- C6 witness: the no-vnu environment with one (nonexistent) file argument. -/
theorem claim_C6_witness :
    mainRun envNoVnu ["a.html"]
      = (1, [Event.print ("Error: vnu not found at " ++ VNU_PATH)]) :=
  (claim_C6 envNoVnu ["a.html"] rfl).1

/-- C1: the driver's exit status is always 0 or 1; it is 0 iff the external
tool was present, every listed file exists, and neither check reported an
issue on any file; it is 1 iff the tool is missing or the OR over the
per-file results is true. -/
theorem claim_C1 (env : Env) (paths : List String) :
    ((mainRun env paths).1 = 0 ∨ (mainRun env paths).1 = 1) ∧
    ((mainRun env paths).1 = 0 ↔
      env.vnuExists = true ∧ ∀ p ∈ paths, ∃ c, env.fs p = some c ∧
        (run_vnu env p).1 = false ∧ (check_trailing_slashes c).1 = false) ∧
    ((mainRun env paths).1 = 1 ↔
      env.vnuExists = false ∨ paths.any (perFileFlag env) = true) := by
  rw [mainRun_fst]
  cases hv : env.vnuExists with
  | false => simp
  | true =>
    cases hany : paths.any (perFileFlag env) with
    | false =>
      have h0 : (if true = true then if false = true then (1 : Nat) else 0 else 1) = 0 := by
        simp
      rw [h0]
      rw [List.any_eq_false] at hany
      refine ⟨Or.inl rfl, ?_, by simp⟩
      constructor
      · intro _
        exact ⟨rfl, fun p hp =>
          (perFileFlag_eq_false_iff env p).mp (by simpa using hany p hp)⟩
      · intro _; rfl
    | true =>
      have h0 : (if true = true then if true = true then (1 : Nat) else 0 else 1) = 1 := by
        simp
      rw [h0]
      refine ⟨Or.inr rfl, ?_, by simp⟩
      rw [List.any_eq_true] at hany
      obtain ⟨p, hp, hflag⟩ := hany
      constructor
      · intro h; exact absurd h (by simp)
      · rintro ⟨-, hall⟩
        have := (perFileFlag_eq_false_iff env p).mpr (hall p hp)
        rw [hflag] at this
        exact Bool.noConfusion this

/-- C3: when the content contains `<img src=x/>` (at offset `p`) and no other
position matches the void-element pattern, the scan flags the file, reports
exactly that one match, and its single message quotes `<img src=x/>` with the
1-based line number obtained by counting preceding newlines. -/
theorem claim_C3 (c : List Char) (p : Nat)
    (h1 : "<img src=x/>".toList.isPrefixOf (c.drop p) = true)
    (h2 : ∀ q < c.length, q ≠ p → matchLenAt (c.drop q) = none) :
    (check_trailing_slashes (String.mk c)).1 = true ∧
    finditerVoid c = [(p, 12)] ∧
    (check_trailing_slashes (String.mk c)).2 =
      "Info: Trailing slash on void element has no effect and interacts badly with unquoted attribute values. Line "
        ++ toString ((c.take p).count '\n' + 1) ++ ": " ++ "<img src=x/>" := by
  obtain ⟨rest, hrest⟩ := List.isPrefixOf_iff_prefix.mp h1
  have hmatch : matchLenAt (c.drop p) = some 12 := by
    rw [← hrest]; exact matchLenAt_imgLit rest
  have hplt : p < c.length := by
    by_contra hge
    rw [matchLenAt_drop_none_of_le (by omega)] at hmatch
    exact Option.noConfusion hmatch
  have h2' : ∀ q, q ≠ p → matchLenAt (c.drop q) = none := fun q hq =>
    if hlt : q < c.length then h2 q hlt hq
    else matchLenAt_drop_none_of_le (by omega)
  have hfind : finditerVoid c = [(p, 12)] := by
    have := finditerAux_single p c.length c 0 12 hplt hmatch h2'
    simpa using this
  have hmk : String.mk ((c.drop p).take 12) = "<img src=x/>" := by
    rw [← hrest, show (12 : Nat) = ("<img src=x/>".toList).length from rfl,
      List.take_left]
    decide
  have hc : (String.mk c).toList = c := rfl
  refine ⟨?_, hfind, ?_⟩
  · simp [check_trailing_slashes, hc, hfind]
  · simp only [check_trailing_slashes, hc, hfind, List.map_cons, List.map_nil]
    rw [intercalate_singleton, matchMessage, hmk]

/-- C3 witness: the content `a\n<img src=x/>` has its single match at offset 2
on line 2. -/
theorem claim_C3_witness :
    (check_trailing_slashes (String.mk "a\n<img src=x/>".toList)).1 = true ∧
    finditerVoid "a\n<img src=x/>".toList = [(2, 12)] ∧
    (check_trailing_slashes (String.mk "a\n<img src=x/>".toList)).2 =
      "Info: Trailing slash on void element has no effect and interacts badly with unquoted attribute values. Line "
        ++ toString ((("a\n<img src=x/>".toList).take 2).count '\n' + 1) ++ ": " ++ "<img src=x/>" :=
  claim_C3 "a\n<img src=x/>".toList 2 (by decide) (by decide)

/-- C7: a listed path that does not exist makes the run exit 1, gets a
file-not-found error printed, is handed to neither check, and the remaining
file arguments are still processed in order around it. -/
theorem claim_C7 (env : Env) (pre post : List String) (p : String)
    (h1 : env.vnuExists = true) (h2 : env.fs p = none) :
    (mainRun env (pre ++ p :: post)).1 = 1 ∧
    Event.print ("Error: File not found: " ++ p) ∈ (mainRun env (pre ++ p :: post)).2 ∧
    Event.callVnu p ∉ (mainRun env (pre ++ p :: post)).2 ∧
    Event.callScan p ∉ (mainRun env (pre ++ p :: post)).2 ∧
    (processFiles env (pre ++ p :: post)).2 =
      (processFiles env pre).2
        ++ Event.print ("Error: File not found: " ++ p) :: (processFiles env post).2 := by
  have hPF := processFiles_append env pre (p :: post)
  have hcons2 : (processFiles env (p :: post)).2
      = Event.print ("Error: File not found: " ++ p) :: (processFiles env post).2 := by
    simp [processFiles, h2]
  have hlast : (processFiles env (pre ++ p :: post)).2 =
      (processFiles env pre).2
        ++ Event.print ("Error: File not found: " ++ p) :: (processFiles env post).2 := by
    rw [hPF]
    simp [hcons2]
  have hflagp : perFileFlag env p = true := by simp [perFileFlag, h2]
  have hany : (pre ++ p :: post).any (perFileFlag env) = true := by
    simp [List.any_append, List.any_cons, hflagp]
  have hexit : (mainRun env (pre ++ p :: post)).1 = 1 := by
    rw [mainRun_fst, if_pos h1, if_pos hany]
  obtain ⟨s, hsnd⟩ := mainRun_snd_of_vnuExists env (pre ++ p :: post) h1
  refine ⟨hexit, ?_, ?_, ?_, hlast⟩
  · rw [hsnd]
    refine List.mem_append.mpr (Or.inl ?_)
    rw [hlast]
    exact List.mem_append.mpr (Or.inr (List.mem_cons_self _ _))
  · rw [hsnd]
    intro hmem
    rcases List.mem_append.mp hmem with hin | hin
    · exact callVnu_not_mem_processFiles h2 _ hin
    · simp at hin
  · rw [hsnd]
    intro hmem
    rcases List.mem_append.mp hmem with hin | hin
    · exact callScan_not_mem_processFiles h2 _ hin
    · simp at hin

/-- C7 witness: one nonexistent path as the only argument, in an environment
where the external tool is present. -/
theorem claim_C7_witness :
    (mainRun envMissingFile ([] ++ "ghost.html" :: [])).1 = 1 ∧
    Event.print ("Error: File not found: " ++ "ghost.html")
      ∈ (mainRun envMissingFile ([] ++ "ghost.html" :: [])).2 ∧
    Event.callVnu "ghost.html" ∉ (mainRun envMissingFile ([] ++ "ghost.html" :: [])).2 ∧
    Event.callScan "ghost.html" ∉ (mainRun envMissingFile ([] ++ "ghost.html" :: [])).2 ∧
    (processFiles envMissingFile ([] ++ "ghost.html" :: [])).2 =
      (processFiles envMissingFile []).2
        ++ Event.print ("Error: File not found: " ++ "ghost.html")
          :: (processFiles envMissingFile []).2 :=
  claim_C7 envMissingFile [] [] "ghost.html" rfl rfl

end HtmlValidator
